import Mathlib

/-!
Verification of the experiment-grid execution engine of `src/plots.py`
(treeseq-inference).  The Python functions relevant to the claims are
shallowly embedded below; file names and textual output are modelled as
`List Char`, machine integers as `Nat`/`Int`, floating rates as `Rat`,
and fallible code as `Except`.  Randomness (numpy's global RNG) is
modelled as an explicit stream argument.
-/

namespace TreeseqInference

/-! ## Decimal-digit helpers used by the name / number formatting code -/

/-- Character for a single decimal digit (`0 ↦ '0'`, ..., `9 ↦ '9'`). -/
def dchar (d : ℕ) : Char := Char.ofNat (48 + d)

/-- Decimal digits of `n`, most significant first, as characters.
`charsOfNat 0 = ['0']`, matching Python's `"{}".format(0)`. -/
def charsOfNat (n : ℕ) : List Char :=
  if n = 0 then ['0'] else ((Nat.digits 10 n).reverse.map dchar)

/-- Numeric value recovered from a digit character. -/
def charVal (c : Char) : ℕ := c.toNat - 48

/-- Decoder for `charsOfNat`: read the characters back into a number. -/
def natOfChars (cs : List Char) : ℕ := Nat.ofDigits 10 ((cs.map charVal).reverse)

theorem charVal_dchar (d : ℕ) (h : d < 10) : charVal (dchar d) = d := by
  interval_cases d <;> rfl

theorem dchar_isDigit (d : ℕ) (h : d < 10) : (dchar d).isDigit = true := by
  interval_cases d <;> rfl

theorem map_charVal_map_dchar (l : List ℕ) (hl : ∀ d ∈ l, d < 10) :
    (l.map dchar).map charVal = l := by
  induction l with
  | nil => rfl
  | cons d ds ih =>
      simp only [List.map_cons, List.cons.injEq]
      exact ⟨charVal_dchar d (hl d (by simp)), ih (fun x hx => hl x (by simp [hx]))⟩

theorem natOfChars_charsOfNat (n : ℕ) : natOfChars (charsOfNat n) = n := by
  unfold charsOfNat natOfChars
  by_cases h : n = 0
  · subst h; rfl
  · rw [if_neg h,
      map_charVal_map_dchar _ (fun d hd => Nat.digits_lt_base (by norm_num) (by simpa using hd)),
      List.reverse_reverse, Nat.ofDigits_digits]

theorem charsOfNat_injective : Function.Injective charsOfNat := by
  intro m n h
  have := congrArg natOfChars h
  rwa [natOfChars_charsOfNat, natOfChars_charsOfNat] at this

theorem charsOfNat_digits (n : ℕ) : ∀ c ∈ charsOfNat n, c.isDigit = true := by
  intro c hc
  unfold charsOfNat at hc
  split at hc
  · simp at hc; subst hc; rfl
  · simp only [List.mem_map, List.mem_reverse] at hc
    obtain ⟨d, hd, rfl⟩ := hc
    exact dchar_isDigit d (Nat.digits_lt_base (by norm_num) hd)

theorem charsOfNat_ne_nil (n : ℕ) : charsOfNat n ≠ [] := by
  unfold charsOfNat
  split
  · simp
  · intro h
    have := congrArg List.length h
    simp only [List.length_map, List.length_reverse, List.length_nil] at this
    exact (by assumption : ¬ n = 0) (by
      have := Nat.digits_eq_nil_iff_eq_zero.mp (List.length_eq_zero.mp this)
      exact this)

/-! ## Seed allocator (`get_seeds`, plots.py lines 151-161)

```python
def get_seeds(n, seed=123, upper=1e7):
    np.random.seed()                       # NOTE: no argument -- OS entropy
    seeds = np.random.randint(upper, size=n)
    seeds = np.unique(seeds)
    while len(seeds) != n:
        seeds = np.append(np.random.randint(upper, size=n-len(seeds)))  # TypeError
        seeds = np.unique(seeds)
    return seeds
```

`np.random.seed()` is called *without* the `seed` parameter, so the draws
come from process-level entropy; we model the reseeded global RNG as an
explicit stream `entropy : ℕ → ℕ` that does not depend on `seed`.
`np.random.randint(upper)` yields a value in `[0, upper)` (modelled as
`entropy i % upper`) and raises `ValueError` when `upper = 0`.
`np.unique` sorts and deduplicates.  The top-up line calls `np.append`
with a single argument, which raises `TypeError` the first time the
`while` loop body runs. -/

/-- Model of `np.unique`: sorted list of the distinct elements. -/
def npUnique (xs : List ℕ) : List ℕ := (xs.dedup).insertionSort (· ≤ ·)

/-- Embedding of `get_seeds`.  The `seed` parameter is accepted but, as in
the source, never consulted; `entropy` stands for the OS-entropy-reseeded
global numpy RNG. -/
def get_seeds (n : ℕ) (seed : ℕ) (upper : ℕ) (entropy : ℕ → ℕ) :
    Except (List Char) (List ℕ) :=
  let _ := seed
  if upper = 0 then
    .error ("ValueError: low >= high").data
  else
    let seeds := npUnique ((List.range n).map (fun i => entropy i % upper))
    if seeds.length = n then .ok seeds
    else .error ("TypeError: np.append missing 1 required positional argument: values").data

theorem npUnique_length_le (xs : List ℕ) (u : ℕ) (h : ∀ x ∈ xs, x < u) :
    (npUnique xs).length ≤ u := by
  unfold npUnique
  rw [(List.perm_insertionSort (· ≤ ·) xs.dedup).length_eq]
  have hsub : xs.dedup ⊆ List.range u := by
    intro a ha
    exact List.mem_range.mpr (h a (List.mem_dedup.mp ha))
  have := (List.nodup_dedup xs).subperm hsub
  simpa using this.length_le

/-- Claim C1 (status: code_bug).  The claim asks that `get_seeds(n, s, u)`
return `n` distinct seeds reproducibly from the master seed `s` and fail
with a clear "insufficient entropy" error when `u < n`.  The code does
neither: whenever `0 < upper < n` the first deduplication leaves fewer
than `n` seeds, the `while` body runs, and its one-argument `np.append`
call raises `TypeError` (no "insufficient entropy" message); moreover the
result is independent of the `seed` argument, because `np.random.seed()`
is called without it, so two calls with the same master seed need not
agree. -/
theorem get_seeds_code_bug (n seed seed' upper : ℕ) (entropy : ℕ → ℕ)
    (hu : 0 < upper) (hn : upper < n) :
    get_seeds n seed upper entropy =
      .error ("TypeError: np.append missing 1 required positional argument: values").data
    ∧ get_seeds n seed upper entropy = get_seeds n seed' upper entropy := by
  constructor
  · unfold get_seeds
    rw [if_neg (Nat.pos_iff_ne_zero.mp hu)]
    have hlen : (npUnique ((List.range n).map (fun i => entropy i % upper))).length ≤ upper := by
      apply npUnique_length_le
      intro x hx
      simp only [List.mem_map] at hx
      obtain ⟨i, _, rfl⟩ := hx
      exact Nat.mod_lt _ hu
    have : (npUnique ((List.range n).map (fun i => entropy i % upper))).length ≠ n := by
      omega
    simp only [this, if_false]
  · rfl

/-- Witness for C1 at `n = 2`, `upper = 1`, master seeds 123 and 456. -/
theorem get_seeds_code_bug_witness :
    get_seeds 2 123 1 (fun i => i) =
      .error ("TypeError: np.append missing 1 required positional argument: values").data
    ∧ get_seeds 2 123 1 (fun i => i) = get_seeds 2 456 1 (fun i => i) :=
  get_seeds_code_bug 2 123 456 1 (fun i => i) (by decide) (by decide)

/-! ## Observation-matrix generation (`make_errors`, `generate_samples`,
plots.py lines 57-79)

```python
def make_errors(v, p):
    m = v.shape[0]
    mask = np.random.random(m) < p
    return np.logical_xor(v.astype(bool), mask).astype(int)

def generate_samples(ts, error_p):
    S = np.zeros((ts.sample_size, ts.num_mutations), dtype="u1")
    for variant in ts.variants():
        done = False
        while not done:
            S[:,variant.index] = make_errors(variant.genotypes, error_p)
            s = np.sum(S[:, variant.index])
            done = 0 < s < ts.sample_size
    return S
```

The tree sequence is modelled by its sample count `n` and the list of
genotype columns (one list of 0/1 entries per variant, length `n`).
`np.random.random(m)` is modelled by an explicit stream of rational
draws in `[0, 1)`, one list per (column, attempt); the unbounded `while`
loop is modelled with fuel, returning `none` when the fuel runs out. -/

/-- Embedding of `make_errors`: flip entry `g` exactly when its random
draw `r` satisfies `r < p`; output entries are the ints of the xor-ed
booleans. -/
def make_errors (v : List ℕ) (rand : List ℚ) (p : ℚ) : List ℕ :=
  List.zipWith (fun g r => if ((g != 0).xor (decide (r < p))) then 1 else 0) v rand

/-- Rejection loop for a single column of `generate_samples`: redraw via
`make_errors` until the column sum `s` satisfies `0 < s < n`. -/
def sampleColumn (n : ℕ) (p : ℚ) (geno : List ℕ) (rand : ℕ → List ℚ) :
    ℕ → ℕ → Option (List ℕ)
  | 0, _ => none
  | fuel + 1, attempt =>
      let c := make_errors geno (rand attempt) p
      if 0 < c.sum ∧ c.sum < n then some c
      else sampleColumn n p geno rand fuel (attempt + 1)

/-- Per-column driver of the `for variant in ts.variants()` loop. -/
def genColumns (n : ℕ) (p : ℚ) (rand : ℕ → ℕ → List ℚ) (fuel : ℕ) :
    List (ℕ × List ℕ) → Option (List (List ℕ))
  | [] => some []
  | (j, geno) :: rest =>
      match sampleColumn n p geno (rand j) fuel 0, genColumns n p rand fuel rest with
      | some c, some S => some (c :: S)
      | _, _ => none

/-- Embedding of `generate_samples`: the observation matrix as a list of
accepted columns (column-major, one per variant). -/
def generate_samples (n : ℕ) (cols : List (List ℕ)) (p : ℚ)
    (rand : ℕ → ℕ → List ℚ) (fuel : ℕ) : Option (List (List ℕ)) :=
  genColumns n p rand fuel cols.enum

theorem sampleColumn_sum (n : ℕ) (p : ℚ) (geno : List ℕ) (rand : ℕ → List ℚ)
    (fuel attempt : ℕ) (c : List ℕ)
    (h : sampleColumn n p geno rand fuel attempt = some c) :
    0 < c.sum ∧ c.sum < n := by
  induction fuel generalizing attempt with
  | zero => simp [sampleColumn] at h
  | succ fuel ih =>
      rw [sampleColumn] at h
      by_cases hc : 0 < (make_errors geno (rand attempt) p).sum ∧
          (make_errors geno (rand attempt) p).sum < n
      · rw [if_pos hc] at h
        obtain rfl : make_errors geno (rand attempt) p = c := by
          simpa using h
        exact hc
      · rw [if_neg hc] at h
        exact ih (attempt + 1) h

theorem genColumns_sum (n : ℕ) (p : ℚ) (rand : ℕ → ℕ → List ℚ) (fuel : ℕ)
    (l : List (ℕ × List ℕ)) (S : List (List ℕ))
    (h : genColumns n p rand fuel l = some S) :
    ∀ c ∈ S, 0 < c.sum ∧ c.sum < n := by
  induction l generalizing S with
  | nil =>
      simp only [genColumns] at h
      obtain rfl : ([] : List (List ℕ)) = S := by simpa using h
      simp
  | cons jg rest ih =>
      obtain ⟨j, geno⟩ := jg
      rw [genColumns] at h
      rcases hcol : sampleColumn n p geno (rand j) fuel 0 with _ | c
      · rw [hcol] at h
        rcases hrest : genColumns n p rand fuel rest with _ | S' <;>
          rw [hrest] at h <;> simp at h
      · rw [hcol] at h
        rcases hrest : genColumns n p rand fuel rest with _ | S'
        · rw [hrest] at h; simp at h
        · rw [hrest] at h
          obtain rfl : c :: S' = S := by simpa using h
          intro x hx
          rcases List.mem_cons.mp hx with rfl | hx'
          · exact sampleColumn_sum n p geno (rand j) fuel 0 x hcol
          · exact ih S' hrest x hx'

/-- Claim C3 (status: confirmed).  Whenever `generate_samples` returns an
observation matrix, every emitted column has a sum `s` with
`0 < s < sample_size`: no column is all-zero or all-one, for any tree
sequence (any genotype columns), any error rate, and any randomness. -/
theorem generate_samples_no_fixed_column (n : ℕ) (cols : List (List ℕ)) (p : ℚ)
    (rand : ℕ → ℕ → List ℚ) (fuel : ℕ) (S : List (List ℕ))
    (h : generate_samples n cols p rand fuel = some S) :
    ∀ c ∈ S, 0 < c.sum ∧ c.sum < n :=
  genColumns_sum n p rand fuel cols.enum S h

/-- Witness for C3: two samples, genotype columns `[1,0]` and `[0,1]`,
error rate `1/2`, random draws all `3/4` (no flips), fuel 3. -/
theorem generate_samples_no_fixed_column_witness :
    generate_samples 2 [[1, 0], [0, 1]] (1/2)
        (fun _ _ => [3/4, 3/4]) 3 = some [[1, 0], [0, 1]] ∧
    ∀ c ∈ [[1, 0], [0, 1]], 0 < List.sum c ∧ List.sum c < 2 :=
  ⟨by norm_num [generate_samples, genColumns, sampleColumn, make_errors],
   generate_samples_no_fixed_column 2 [[1, 0], [0, 1]] (1/2)
    (fun _ _ => [3/4, 3/4]) 3 [[1, 0], [0, 1]]
    (by norm_num [generate_samples, genColumns, sampleColumn, make_errors])⟩

theorem make_errors_zero_aux (v : List ℕ) (rand : List ℚ)
    (hbin : ∀ g ∈ v, g = 0 ∨ g = 1) (hr : ∀ r ∈ rand, 0 ≤ r)
    (hlen : rand.length = v.length) :
    make_errors v rand 0 = v := by
  induction v generalizing rand with
  | nil => rfl
  | cons g gs ih =>
      cases rand with
      | nil => simp at hlen
      | cons r rs =>
          have hr0 : ¬ r < 0 := not_lt.mpr (hr r (by simp))
          have hentry : (if ((g != 0).xor (decide (r < 0))) then 1 else 0) = g := by
            rcases hbin g (by simp) with rfl | rfl <;> simp [hr0]
          simp only [make_errors, List.zipWith_cons_cons] at *
          rw [hentry,
            ih rs (fun x hx => hbin x (by simp [hx])) (fun x hx => hr x (by simp [hx]))
              (by simpa using hlen)]

theorem sampleColumn_zero_aux (n : ℕ) (geno : List ℕ) (rand : ℕ → List ℚ)
    (hbin : ∀ g ∈ geno, g = 0 ∨ g = 1) (hr : ∀ x ∈ rand 0, 0 ≤ x)
    (hlen : (rand 0).length = geno.length) (hpoly : 0 < geno.sum ∧ geno.sum < n) :
    sampleColumn n 0 geno rand 1 0 = some geno := by
  rw [sampleColumn]
  simp only [make_errors_zero_aux geno (rand 0) hbin hr hlen]
  rw [if_pos hpoly]

theorem genColumns_zero_aux (n : ℕ) (rand : ℕ → ℕ → List ℚ)
    (l : List (ℕ × List ℕ))
    (hbin : ∀ p ∈ l, ∀ g ∈ p.2, g = 0 ∨ g = 1)
    (hr : ∀ j a, ∀ x ∈ rand j a, 0 ≤ x)
    (hlen : ∀ p ∈ l, (rand p.1 0).length = p.2.length)
    (hpoly : ∀ p ∈ l, 0 < p.2.sum ∧ p.2.sum < n) :
    genColumns n 0 rand 1 l = some (l.map Prod.snd) := by
  induction l with
  | nil => rfl
  | cons jg rest ih =>
      obtain ⟨j, geno⟩ := jg
      rw [genColumns,
        sampleColumn_zero_aux n geno (rand j) (hbin (j, geno) (by simp)) (hr j 0)
          (hlen (j, geno) (by simp)) (hpoly (j, geno) (by simp)),
        ih (fun p hp => hbin p (by simp [hp])) (fun p hp => hlen p (by simp [hp]))
          (fun p hp => hpoly p (by simp [hp]))]
      rfl

/-- Claim C10 (status: confirmed).  First conjunct: flipping each entry of
a binary genotype vector with probability 0 is the identity (the random
draws of `np.random.random` lie in `[0, 1)`, so none is `< 0`).  Second
conjunct: `generate_samples` at error rate 0 returns exactly the true
genotype matrix, every column accepted on its first draw (fuel 1 suffices),
provided each true genotype column is polymorphic (`0 < sum < n`), which
holds for the variants a tree sequence with at least two samples emits. -/
theorem make_errors_zero_identity :
    (∀ (v : List ℕ) (rand : List ℚ), (∀ g ∈ v, g = 0 ∨ g = 1) →
      (∀ r ∈ rand, 0 ≤ r) → rand.length = v.length → make_errors v rand 0 = v) ∧
    (∀ (n : ℕ) (cols : List (List ℕ)) (rand : ℕ → ℕ → List ℚ),
      (∀ col ∈ cols, ∀ g ∈ col, g = 0 ∨ g = 1) →
      (∀ j a, ∀ x ∈ rand j a, 0 ≤ x) →
      (∀ col ∈ cols, col.length = n) →
      (∀ j a, (rand j a).length = n) →
      (∀ col ∈ cols, 0 < col.sum ∧ col.sum < n) →
      generate_samples n cols 0 rand 1 = some cols) := by
  refine ⟨make_errors_zero_aux, ?_⟩
  intro n cols rand hbin hr hclen hrlen hpoly
  have hmem : ∀ p ∈ cols.enum, p.2 ∈ cols := by
    intro p hp
    exact List.snd_mem_of_mem_enumFrom hp
  unfold generate_samples
  rw [genColumns_zero_aux n rand cols.enum
      (fun p hp => hbin p.2 (hmem p hp))
      hr
      (fun p hp => by rw [hrlen, hclen p.2 (hmem p hp)])
      (fun p hp => hpoly p.2 (hmem p hp)),
    List.enum_map_snd]

/-- Witness for C10 at a 2-sample, 2-variant tree sequence with true
genotype columns `[1,0]` and `[0,1]` and random draws all `1/2`. -/
theorem make_errors_zero_identity_witness :
    make_errors [1, 0] [1/2, 1/2] 0 = [1, 0] ∧
    generate_samples 2 [[1, 0], [0, 1]] 0 (fun _ _ => [1/2, 1/2]) 1 =
      some [[1, 0], [0, 1]] :=
  ⟨make_errors_zero_identity.1 [1, 0] [1/2, 1/2] (by decide) (by norm_num) (by decide),
   make_errors_zero_identity.2 2 [[1, 0], [0, 1]] (fun _ _ => [1/2, 1/2])
     (by decide) (by norm_num) (by decide) (by simp) (by decide)⟩

/-! ## Filename suffix marking (plots.py lines 97-118)

```python
def add_error_param_to_name(sim_name, error_rate):
    if sim_name.endswith("+") or sim_name.endswith("-"):
        return sim_name + "_err{}".format(float(error_rate))
    else:
        return sim_name + "err{}".format(float(error_rate))

def add_subsample_param_to_name(sim_name, subsample_size):
    if sim_name.endswith("+") or sim_name.endswith("-"):
        return sim_basename + "max{}".format(int(subsample_size))
    else:
        return sim_basename + "_max{}".format(int(subsample_size))
```

Both branches of `add_subsample_param_to_name` reference `sim_basename`,
a name that is defined nowhere in the module (the parameter is
`sim_name`), so Python raises `NameError` as soon as either branch body
is evaluated; no string is ever returned. -/

/-- Test of `sim_name.endswith("+") or sim_name.endswith("-")`. -/
def endsInPlusMinus (s : List Char) : Bool :=
  s.getLast? == some '+' || s.getLast? == some '-'

/-- Embedding of `add_subsample_param_to_name`.  Both branch bodies look
up the undefined global `sim_basename` before any concatenation, so the
call raises `NameError` in every case. -/
def add_subsample_param_to_name (sim_name : List Char) (subsample_size : ℕ) :
    Except (List Char) (List Char) :=
  let _ := subsample_size
  if endsInPlusMinus sim_name then
    .error ("NameError: name sim_basename is not defined").data
  else
    .error ("NameError: name sim_basename is not defined").data

/-- Claim C9 (status: code_bug).  The claim says
`add_subsample_param_to_name` returns its argument with a `max<size>`
suffix appended and composes unambiguously with error marking.  In the
source both branch bodies read the undefined variable `sim_basename`
(the parameter is spelled `sim_name`), so every call raises `NameError`
and no suffixed name is ever produced; in particular no composition with
`add_error_param_to_name` can succeed in either order. -/
theorem add_subsample_param_to_name_code_bug (sim_name : List Char) (subsample_size : ℕ) :
    add_subsample_param_to_name sim_name subsample_size =
      .error ("NameError: name sim_basename is not defined").data := by
  unfold add_subsample_param_to_name
  split <;> rfl

/-! ## Round-trip consistency check of `run_fastarg` (plots.py lines 470-493)

```python
try:
    assert filecmp.cmp(file_name, fa_revised.name, shallow=False), ...
except AssertionError:
    warn("File '{}' copied to 'bad.hap' for debugging".format(
        fa_revised.name), file=sys.stderr)
    shutil.copyfile(fa_revised.name, os.path.join('bad.hap'))
    raise
```

No `warn` is imported or defined anywhere in the module, so when the
byte-for-byte comparison fails the handler's first statement raises
`NameError` before the `shutil.copyfile(..., 'bad.hap')` line runs: the
divergent artifact is never preserved, and the exception that escapes is
the `NameError`, not the `AssertionError`. -/

/-- Embedding of the round-trip consistency tail of `run_fastarg`.  The
first component records the debug files written while handling the
failure (the targets of `shutil.copyfile`); the second is the outcome. -/
def run_fastarg_consistency_check (filesEqual : Bool) :
    List (List Char) × Except (List Char) Unit :=
  if filesEqual then ([], .ok ())
  else ([], .error ("NameError: name warn is not defined").data)

/-- Claim C8 (status: code_bug).  On a failed round-trip comparison the
code raises `NameError` (the handler calls the undefined `warn`) before
reaching the `shutil.copyfile` that would save `bad.hap`: no debug file
is written, and the escaping failure is not the assertion about the
divergent artifact. -/
theorem run_fastarg_consistency_check_code_bug :
    run_fastarg_consistency_check false =
      ([], .error ("NameError: name warn is not defined").data) ∧
    ("bad.hap").data ∉ (run_fastarg_consistency_check false).1 := by
  constructor
  · rfl
  · intro h
    simp [run_fastarg_consistency_check] at h

/-! ## ARGweaver iteration discovery (plots.py lines 495-531 and 354-370)

```python
new_prefix = path_prefix + "_i"
...
smc_prefix = new_prefix + "."
iterations = [f[len(smc_prefix):-7] for f in glob.glob(smc_prefix + "*" + ".smc.gz")]
...
self.data.loc[i, result_cols] = (time, memory, ",".join(iteration_ids))
```

`glob.glob(smc_prefix + "*" + ".smc.gz")` returns the files that exist
on disk matching the pattern; it is modelled by filtering an explicit
listing of the emitted files.  The `*` matches any (possibly empty)
sequence of characters between the fixed prefix and the fixed
`".smc.gz"` suffix (7 characters, stripped by the `-7` slice). -/

/-- Seven-character suffix added by `arg-sample` to each iteration file. -/
def smcSuffixChars : List Char := (".smc.gz").data

/-- Matching a filename against the glob pattern `pre + "*" + suf`. -/
def globMatchStar (pre suf f : List Char) : Bool :=
  decide (pre.length + suf.length ≤ f.length) &&
  f.take pre.length == pre &&
  f.drop (f.length - suf.length) == suf

/-- Embedding of the iteration-id scan of `run_argweaver`: strip the
`smc_prefix` and the 7-character `".smc.gz"` suffix from each emitted
file that matches the glob pattern. -/
def run_argweaver_iterations (pathStem : List Char) (emitted : List (List Char)) :
    List (List Char) :=
  let smc_prefix := pathStem ++ ('_' :: 'i' :: ['.'])
  (emitted.filter (globMatchStar smc_prefix smcSuffixChars)).map
    (fun f => (f.drop smc_prefix.length).take (f.length - 7 - smc_prefix.length))

/-- Value stored by `Dataset.generate` in the row's
`ARGweaver_iterations` column: the comma-joined iteration ids. -/
def argweaver_iterations_column (pathStem : List Char) (emitted : List (List Char)) :
    List Char :=
  List.intercalate [','] (run_argweaver_iterations pathStem emitted)

/-- Name of an emitted iteration file for iteration id `it`. -/
def smcFileName (pathStem it : List Char) : List Char :=
  (pathStem ++ ('_' :: 'i' :: ['.'])) ++ it ++ smcSuffixChars

theorem globMatchStar_smcFileName (P it : List Char) :
    globMatchStar (P ++ ('_' :: 'i' :: ['.'])) smcSuffixChars (smcFileName P it) = true := by
  have hsuf : smcSuffixChars.length = 7 := rfl
  unfold globMatchStar smcFileName
  have h1 : ((P ++ ('_' :: 'i' :: ['.'])) ++ it ++ smcSuffixChars).take
      (P ++ ('_' :: 'i' :: ['.'])).length = P ++ ('_' :: 'i' :: ['.']) := by
    rw [List.append_assoc]
    exact List.take_left' rfl
  have h2 : ((P ++ ('_' :: 'i' :: ['.'])) ++ it ++ smcSuffixChars).drop
      (((P ++ ('_' :: 'i' :: ['.'])) ++ it ++ smcSuffixChars).length -
        smcSuffixChars.length) = smcSuffixChars := by
    exact List.drop_left' (by simp [List.length_append, hsuf]; omega)
  rw [h1, h2]
  simp only [beq_self_eq_true, Bool.and_true]
  simp [List.length_append, hsuf]
  omega

theorem smcFileName_strip (P it : List Char) :
    ((smcFileName P it).drop (P ++ ('_' :: 'i' :: ['.'])).length).take
      ((smcFileName P it).length - 7 - (P ++ ('_' :: 'i' :: ['.'])).length) = it := by
  have hsuf : smcSuffixChars.length = 7 := rfl
  unfold smcFileName
  rw [List.append_assoc, List.drop_left]
  exact List.take_left' (by simp [List.length_append, hsuf]; omega)

/-- Claim C7 (status: confirmed).  The iteration identifiers returned by
`run_argweaver` are exactly those read back from the emitted
`.smc.gz` files: for any list of iteration ids, scanning the file names
actually emitted recovers precisely that list (nothing is assumed from
the configured sample count, which the scan never consults), and the
value stored in the row's `ARGweaver_iterations` column is the single
comma-joined text of those ids. -/
theorem run_argweaver_iterations_scan (P : List Char) (its : List (List Char)) :
    run_argweaver_iterations P (its.map (smcFileName P)) = its ∧
    argweaver_iterations_column P (its.map (smcFileName P)) =
      List.intercalate [','] its := by
  have hscan : run_argweaver_iterations P (its.map (smcFileName P)) = its := by
    unfold run_argweaver_iterations
    induction its with
    | nil => rfl
    | cons it rest ih =>
        simp only [List.map_cons, List.filter_cons, globMatchStar_smcFileName P it,
          if_pos, List.map_cons] at *
        rw [smcFileName_strip P it]
        exact congrArg (it :: ·) ih
  exact ⟨hscan, by unfold argweaver_iterations_column; rw [hscan]⟩

/-! ## The generation loop and its checkpoint discipline
(`Dataset.generate`, plots.py lines 318-375)

```python
for i in self.data.index:
    d = self.data.iloc[i]
    ...
    for tool, result_cols in sorted(tool_cols.items()):
        ...
        self.data.loc[i, result_cols] = (time, memory, ...)
    # Save each row so we can use the information while it's being built
    self.data.to_csv(self.data_file)
```

The in-memory result table is modelled as a list with one entry per row:
`none` while the row's tool columns are still the NaN placeholders, and
`some (runTools i)` once the per-tool loop has written that row's
results (`runTools` abstracts the combined outcome of all configured
tool runs for row `i`).  The durable data file is the second state
component: `none` until the first `to_csv`, then `some` of the entire
table snapshot that was written. -/

/-- State of the generation loop: in-memory table and the durable file. -/
def GenState (α : Type) : Type := List (Option α) × Option (List (Option α))

/-- One iteration of the row loop: run the row's tools, write the
results into the row, then persist the entire table to the data file. -/
def generateRowStep (runTools : ℕ → α) (st : GenState α) (i : ℕ) : GenState α :=
  let table := st.1.set i (some (runTools i))
  (table, some table)

/-- State of `Dataset.generate` after the first `k` rows of an
`numRows`-row table have been processed (all rows initially
unpopulated, file not yet written by this loop). -/
def generateUpTo (runTools : ℕ → α) (numRows k : ℕ) : GenState α :=
  (List.range k).foldl (generateRowStep runTools) (List.replicate numRows none, none)

/-- Full run of the generation loop. -/
def generate (runTools : ℕ → α) (numRows : ℕ) : GenState α :=
  generateUpTo runTools numRows numRows

theorem generateUpTo_succ (runTools : ℕ → α) (numRows k : ℕ) :
    generateUpTo runTools numRows (k + 1) =
      generateRowStep runTools (generateUpTo runTools numRows k) k := by
  unfold generateUpTo
  rw [List.range_succ, List.foldl_append, List.foldl_cons, List.foldl_nil]

theorem generateUpTo_table (runTools : ℕ → α) (numRows k : ℕ) (hk : k ≤ numRows) :
    (generateUpTo runTools numRows k).1 =
      (List.range k).map (fun i => some (runTools i)) ++
        List.replicate (numRows - k) none := by
  induction k with
  | zero => simp [generateUpTo]
  | succ k ih =>
      rw [generateUpTo_succ]
      unfold generateRowStep
      rw [ih (by omega)]
      have hlenA : ((List.range k).map (fun i => some (runTools i))).length = k := by
        simp
      rw [List.set_append_right _ _ (by omega)]
      have hrep : numRows - k = (numRows - (k + 1)) + 1 := by omega
      rw [hrep, List.replicate_succ, hlenA, Nat.sub_self, List.set_cons_zero,
        List.range_succ, List.map_append]
      simp

/-- Claim C2 (status: confirmed).  After each row of the generation loop
completes (its tools have run and their results were written into that
row), the entire current result table is persisted to the data file
before the next row starts: at every point between rows the durable file
holds `some` of the in-memory table, and that table has exactly the
first `k` rows populated with their tool results and the remaining rows
still unpopulated — so an interruption between rows loses at most the
in-flight row's work. -/
theorem generate_checkpoints_every_row (runTools : ℕ → α) (numRows k : ℕ)
    (hk1 : 1 ≤ k) (hk : k ≤ numRows) :
    (generateUpTo runTools numRows k).2 = some ((generateUpTo runTools numRows k).1) ∧
    (generateUpTo runTools numRows k).1 =
      (List.range k).map (fun i => some (runTools i)) ++
        List.replicate (numRows - k) none := by
  refine ⟨?_, generateUpTo_table runTools numRows k hk⟩
  obtain ⟨m, rfl⟩ : ∃ m, k = m + 1 := ⟨k - 1, by omega⟩
  rw [generateUpTo_succ]
  rfl

/-- Witness for C2: two rows, row results `runTools i = i`, after the
first row the file holds the whole table `[some 0, none]`. -/
theorem generate_checkpoints_every_row_witness :
    (generateUpTo (fun i => i) 2 1).2 = some ((generateUpTo (fun i => i) 2 1).1) ∧
    (generateUpTo (fun i => i) 2 1).1 =
      (List.range 1).map (fun i => some i) ++ List.replicate (2 - 1) none :=
  generate_checkpoints_every_row (fun i => i) 2 1 (by decide) (by decide)

/-! ## Resource-measured process runner (`time_cmd`, plots.py lines 163-193)

```python
full_cmd = [time_cmd, "-f%M %S %U"] + cmd
with tempfile.TemporaryFile() as stderr:
    exit_status = subprocess.call(full_cmd, stderr=stderr, stdout=stdout)
    stderr.seek(0)
    if exit_status != 0:
        raise ValueError("Error running '{}': status={}:stderr{}".format(
            " ".join(cmd), exit_status, stderr.read()))
    split = stderr.readlines()[-1].split()
    max_memory = int(split[0]) * 1024
    system_time = float(split[1])
    user_time = float(split[2])
return user_time + system_time, max_memory
```

The external process is modelled by its observable effects: the exit
status and the captured standard-error stream (a list of lines, the
last normally being the `/usr/bin/time -f"%M %S %U"` measurement line).
`int()`/`float()` are modelled for the non-negative decimal notation the
time wrapper emits; Python's `.split()` is modelled as splitting on
runs of spaces. -/

/-- Value of a digit string (0 for the empty list). -/
def digitsVal (cs : List Char) : ℕ := cs.foldl (fun a c => 10 * a + charVal c) 0

/-- Model of Python `int()` on the wrapper's `%M` token: a non-empty
run of decimal digits. -/
def parseDigits (cs : List Char) : Option ℕ :=
  if cs.isEmpty then none
  else if cs.all Char.isDigit then some (digitsVal cs) else none

/-- Model of Python `float()` on the wrapper's `%S`/`%U` tokens:
digits with at most one decimal point, not both sides empty. -/
def parseFloat (cs : List Char) : Option ℚ :=
  match cs.splitOn '.' with
  | [a] => (parseDigits a).map (fun n => (n : ℚ))
  | [a, b] =>
      if a.isEmpty && b.isEmpty then none
      else if a.all Char.isDigit && b.all Char.isDigit then
        some ((digitsVal a : ℚ) + (digitsVal b : ℚ) / 10 ^ b.length)
      else none
  | _ => none

/-- Model of Python `str.split()` (no argument): maximal runs of
non-space characters. -/
def splitTokens : List Char → List (List Char)
  | [] => []
  | c :: rest =>
      if c = ' ' then splitTokens rest
      else
        match rest, splitTokens rest with
        | ' ' :: _, ts => [c] :: ts
        | _ :: _, t :: ts => (c :: t) :: ts
        | _, _ => [[c]]

/-- Parse of the measurement line `"%M %S %U"`: `int(split[0])`,
`float(split[1])`, `float(split[2])`; extra tokens are ignored exactly
as Python's indexing does. -/
def parseMeasurement (line : List Char) : Option (ℕ × ℚ × ℚ) :=
  match splitTokens line with
  | m :: s :: u :: _ => do
      let M ← parseDigits m
      let S ← parseFloat s
      let U ← parseFloat u
      pure (M, S, U)
  | _ => none

/-- Decimal rendering of an integer (for the `status={}` part). -/
def intChars (z : ℤ) : List Char :=
  if z < 0 then '-' :: charsOfNat z.natAbs else charsOfNat z.natAbs

/-- Captured text of the standard-error stream. -/
def stderrTextOf (lines : List (List Char)) : List Char :=
  List.intercalate ['\n'] lines

/-- Message of the `ValueError` raised on non-zero exit status; it ends
with the full captured standard-error text. -/
def timeCmdErrMsg (cmd : List (List Char)) (status : ℤ) (stderrText : List Char) :
    List Char :=
  ("Error running ").data ++ List.intercalate [' '] cmd ++
    (": status=").data ++ intChars status ++ (":stderr").data ++ stderrText

/-- Embedding of `time_cmd`: given the wrapped command's exit status and
captured stderr, either raise (non-zero status, or an unparsable last
line) or return `(user+system CPU seconds, bytes of peak RSS)`. -/
def time_cmd (cmd : List (List Char)) (exitStatus : ℤ)
    (stderrLines : List (List Char)) : Except (List Char) (ℚ × ℕ) :=
  if exitStatus ≠ 0 then
    .error (timeCmdErrMsg cmd exitStatus (stderrTextOf stderrLines))
  else
    match stderrLines.getLast? with
    | none => .error ("IndexError: list index out of range").data
    | some line =>
        match parseMeasurement line with
        | none => .error ("ValueError: invalid measurement line").data
        | some (M, S, U) => .ok (U + S, M * 1024)

theorem parseFloat_nonneg (cs : List Char) (q : ℚ) (h : parseFloat cs = some q) :
    0 ≤ q := by
  unfold parseFloat at h
  split at h
  · rename_i a ha
    cases hpd : parseDigits a with
    | none => rw [hpd] at h; exact absurd h (by simp)
    | some n =>
        rw [hpd] at h
        have hq : (n : ℚ) = q := by simpa using h
        rw [← hq]
        exact Nat.cast_nonneg n
  · split at h
    · exact absurd h (by simp)
    · split at h
      · obtain rfl : _ = q := Option.some.inj h
        positivity
      · exact absurd h (by simp)
  · exact absurd h (by simp)

theorem parseMeasurement_nonneg (line : List Char) (M : ℕ) (S U : ℚ)
    (h : parseMeasurement line = some (M, S, U)) : 0 ≤ S ∧ 0 ≤ U := by
  unfold parseMeasurement at h
  split at h
  · rcases Option.bind_eq_some.mp h with ⟨M', hM, h⟩
    rcases Option.bind_eq_some.mp h with ⟨S', hS, h⟩
    rcases Option.bind_eq_some.mp h with ⟨U', hU, h⟩
    obtain ⟨rfl, rfl, rfl⟩ : M' = M ∧ S' = S ∧ U' = U := by
      have := Option.some.inj h
      exact ⟨congrArg Prod.fst this, congrArg (Prod.fst ∘ Prod.snd) this,
        congrArg (Prod.snd ∘ Prod.snd) this⟩
    exact ⟨parseFloat_nonneg _ _ hS, parseFloat_nonneg _ _ hU⟩
  · exact absurd h (by simp)

/-- Claim C4 (status: confirmed).  Provided the measurement wrapper's
last stderr line parses (as it does whenever `/usr/bin/time` ran), the
call raises exactly when the wrapped command's exit status is non-zero;
the raised message carries the captured standard-error text (it is a
suffix of the message), and on success the returned pair has
non-negative CPU seconds (the memory component is a natural number, so
non-negative by type). -/
theorem time_cmd_error_iff (cmd : List (List Char)) (exitStatus : ℤ)
    (lines : List (List Char))
    (h : ∃ line M S U, lines.getLast? = some line ∧
      parseMeasurement line = some (M, S, U)) :
    ((∃ e, time_cmd cmd exitStatus lines = .error e) ↔ exitStatus ≠ 0) ∧
    (exitStatus ≠ 0 →
      ∃ pre, time_cmd cmd exitStatus lines = .error (pre ++ stderrTextOf lines)) ∧
    (exitStatus = 0 →
      ∃ c m, time_cmd cmd exitStatus lines = .ok (c, m) ∧ 0 ≤ c) := by
  obtain ⟨line, M, S, U, hlast, hparse⟩ := h
  by_cases hz : exitStatus = 0
  · subst hz
    have hok : time_cmd cmd 0 lines = .ok (U + S, M * 1024) := by
      unfold time_cmd
      rw [if_neg (by simp), hlast]
      simp [hparse]
    refine ⟨?_, ?_, ?_⟩
    · constructor
      · rintro ⟨e, he⟩
        rw [hok] at he
        exact absurd he (by simp)
      · intro hne; exact absurd rfl hne
    · intro hne; exact absurd rfl hne
    · intro _
      obtain ⟨hS, hU⟩ := parseMeasurement_nonneg line M S U hparse
      exact ⟨U + S, M * 1024, hok, by linarith⟩
  · have herr : time_cmd cmd exitStatus lines =
        .error (timeCmdErrMsg cmd exitStatus (stderrTextOf lines)) := by
      unfold time_cmd
      rw [if_pos hz]
    refine ⟨?_, ?_, ?_⟩
    · exact ⟨fun _ => hz, fun _ => ⟨_, herr⟩⟩
    · intro _
      refine ⟨("Error running ").data ++ List.intercalate [' '] cmd ++
        (": status=").data ++ intChars exitStatus ++ (":stderr").data, ?_⟩
      rw [herr]
      unfold timeCmdErrMsg
      simp [List.append_assoc]
    · intro h0; exact absurd h0 hz

/-- Witness for C4 with exit status 0 and last line `"1234 3 2"`. -/
theorem time_cmd_error_iff_witness :
    ((∃ e, time_cmd [] 0 [("1234 3 2").data] = .error e) ↔ (0 : ℤ) ≠ 0) ∧
    ((0 : ℤ) ≠ 0 →
      ∃ pre, time_cmd [] 0 [("1234 3 2").data] =
        .error (pre ++ stderrTextOf [("1234 3 2").data])) ∧
    ((0 : ℤ) = 0 →
      ∃ c m, time_cmd [] 0 [("1234 3 2").data] = .ok (c, m) ∧ 0 ≤ c) :=
  time_cmd_error_iff [] 0 [("1234 3 2").data]
    ⟨("1234 3 2").data, 1234, 3, 2, rfl, by
      unfold parseMeasurement
      have hsplit : splitTokens (("1234 3 2").data) =
          [['1', '2', '3', '4'], ['3'], ['2']] := by decide
      rw [hsplit]
      simp [parseDigits, parseFloat, digitsVal, charVal, List.splitOn]⟩

/-- Claim C5 (status: confirmed).  On success the CPU value returned by
`time_cmd` is exactly `user + system` seconds as parsed from `%S`/`%U`
(not wall-clock time), the memory value is `%M` kilobytes converted to
`M * 1024` bytes, and only the last stderr line is consulted: any junk
lines the wrapped tool wrote before it do not change the result. -/
theorem time_cmd_success_values (cmd junkCmd : List (List Char))
    (junk : List (List Char)) (line : List Char) (M : ℕ) (S U : ℚ)
    (hp : parseMeasurement line = some (M, S, U)) :
    time_cmd cmd 0 (junk ++ [line]) = .ok (U + S, M * 1024) ∧
    time_cmd cmd 0 (junk ++ [line]) = time_cmd junkCmd 0 [line] := by
  have hok : ∀ (c : List (List Char)) (ls : List (List Char)),
      ls.getLast? = some line → time_cmd c 0 ls = .ok (U + S, M * 1024) := by
    intro c ls hlast
    unfold time_cmd
    rw [if_neg (by simp), hlast]
    simp [hp]
  have h1 := hok cmd (junk ++ [line]) (List.getLast?_concat junk)
  have h2 := hok junkCmd [line] rfl
  exact ⟨h1, h1.trans h2.symm⟩

/-- Witness for C5: two junk lines from the tool, then the measurement
line `"1234 3 2"`: memory 1234 KiB = 1263616 bytes, CPU 2 + 3 = 5. -/
theorem time_cmd_success_values_witness :
    time_cmd [] 0 [("noise").data, ("more noise").data, ("1234 3 2").data] =
      .ok (2 + 3, 1234 * 1024) ∧
    time_cmd [] 0 [("noise").data, ("more noise").data, ("1234 3 2").data] =
      time_cmd [] 0 [("1234 3 2").data] :=
  time_cmd_success_values [] [] [("noise").data, ("more noise").data]
    (("1234 3 2").data) 1234 3 2 (by
      unfold parseMeasurement
      have hsplit : splitTokens (("1234 3 2").data) =
          [['1', '2', '3', '4'], ['3'], ['2']] := by decide
      rw [hsplit]
      simp [parseDigits, parseFloat, digitsVal, charVal, List.splitOn])

/-! ## Simulation file naming (`msprime_name`, plots.py lines 81-95)

```python
rho = "{:.12f}".format(float(rho)).rstrip('0')
mu = "{:.12f}".format(float(mu)).rstrip('0')
file = "msprime-n{}_Ne{}_l{}_rho{}_mu{}-gs{}_ms{}".format(
    int(n), float(Ne), int(l), rho, mu, int(genealogy_seed), int(mut_seed))
```

The embedding covers the parameter domain the pipeline uses:
non-negative integer `n`, `l` and seeds, integer-valued `Ne` (for which
Python's `"{}".format(float(Ne))` prints `"<Ne>.0"`), and non-negative
rational rates.  `"{:.12f}"` rounds to 12 decimal places (`rnd12`,
round-half-up on the rational value; ties cannot arise for any float
input) and prints `<int part>.<12 fractional digits>`; `rstrip('0')`
then removes the trailing zero characters of the fractional part — the
`'.'` stops it from ever touching the integer part. -/

/-- The characters `"{:.12f}"` keeps after `rstrip('0')` removes the
trailing zeros. -/
def stripZeros (l : List Char) : List Char :=
  (l.reverse.dropWhile (fun c => c == '0')).reverse

/-- Digit characters of `b`, most significant first (empty for 0). -/
def digitsChars (b : ℕ) : List Char := (Nat.digits 10 b).reverse.map dchar

/-- The 12 fractional digit characters of `b/10^12` (left-padded). -/
def pad12 (b : ℕ) : List Char :=
  List.replicate (12 - (digitsChars b).length) '0' ++ digitsChars b

/-- Formatting of the 12-decimal-place value `t/10^12`:
`"{:.12f}".format(t / 10**12).rstrip('0')`. -/
def fmtRate12 (t : ℕ) : List Char :=
  charsOfNat (t / 10 ^ 12) ++ '.' :: stripZeros (pad12 (t % 10 ^ 12))

/-- Rounding of a non-negative rate to 12 decimal places. -/
def rnd12 (q : ℚ) : ℕ := (⌊q * 10 ^ 12 + 1/2⌋).toNat

/-- Serialization of a rate: `"{:.12f}".format(q).rstrip('0')`. -/
def fmtRate (q : ℚ) : List Char := fmtRate12 (rnd12 q)

/-- Python's `"{}".format(float(m))` for an integer-valued `m`. -/
def pyFloatIntChars (m : ℕ) : List Char := charsOfNat m ++ '.' :: ['0']

/-- Embedding of `msprime_name` (without the optional directory, which
merely prepends `directory + '/'`). -/
def msprime_name (n Ne l : ℕ) (rho mu : ℚ) (gs ms : ℕ) : List Char :=
  ("msprime-n").data ++ charsOfNat n ++
  ("_Ne").data ++ pyFloatIntChars Ne ++
  ("_l").data ++ charsOfNat l ++
  ("_rho").data ++ fmtRate rho ++
  ("_mu").data ++ fmtRate mu ++
  ("-gs").data ++ charsOfNat gs ++
  ("_ms").data ++ charsOfNat ms

theorem rnd12_div_pow (A : ℕ) : rnd12 ((A : ℚ) / 10 ^ 12) = A := by
  unfold rnd12
  have h1 : (A : ℚ) / 10 ^ 12 * 10 ^ 12 = (A : ℚ) := by
    field_simp
  rw [h1]
  have h2 : ((A : ℚ) + 1/2) = ((A : ℤ) : ℚ) + 1/2 := by push_cast; ring
  rw [h2, Int.floor_int_add]
  have h3 : ⌊(1/2 : ℚ)⌋ = 0 := by norm_num [Int.floor_eq_iff]
  rw [h3, add_zero, Int.toNat_natCast]

theorem splitSep (c : Char) (a b s t : List Char)
    (ha : ∀ x ∈ a, x ≠ c) (hb : ∀ x ∈ b, x ≠ c)
    (h : a ++ c :: s = b ++ c :: t) : a = b ∧ s = t := by
  induction a generalizing b with
  | nil =>
      cases b with
      | nil => simpa using h
      | cons y b' =>
          rw [List.nil_append, List.cons_append] at h
          obtain ⟨hcy, -⟩ := List.cons.inj h
          exact absurd hcy.symm (hb y (by simp))
  | cons x a' ih =>
      cases b with
      | nil =>
          rw [List.cons_append, List.nil_append] at h
          obtain ⟨hxc, -⟩ := List.cons.inj h
          exact absurd hxc (ha x (by simp))
      | cons y b' =>
          rw [List.cons_append, List.cons_append] at h
          obtain ⟨hxy, htail⟩ := List.cons.inj h
          obtain ⟨hab, hst⟩ := ih b' (fun z hz => ha z (by simp [hz]))
            (fun z hz => hb z (by simp [hz])) htail
          exact ⟨by rw [hxy, hab], hst⟩

theorem isDigit_ne_of (c d : Char) (hc : c.isDigit = true) (hd : d.isDigit = false) :
    c ≠ d := by
  intro h
  rw [h] at hc
  rw [hc] at hd
  exact absurd hd (by decide)

theorem digitsChars_digits (b : ℕ) : ∀ c ∈ digitsChars b, c.isDigit = true := by
  intro c hc
  unfold digitsChars at hc
  simp only [List.mem_map, List.mem_reverse] at hc
  obtain ⟨d, hd, rfl⟩ := hc
  exact dchar_isDigit d (Nat.digits_lt_base (by norm_num) hd)

theorem pad12_digits (b : ℕ) : ∀ c ∈ pad12 b, c.isDigit = true := by
  intro c hc
  rcases List.mem_append.mp hc with h | h
  · rw [List.eq_of_mem_replicate h]; rfl
  · exact digitsChars_digits b c h

theorem stripZeros_subset (l : List Char) : ∀ c ∈ stripZeros l, c ∈ l := by
  intro c hc
  unfold stripZeros at hc
  rw [List.mem_reverse] at hc
  have := List.dropWhile_subset (l := l.reverse) (fun c => c == '0') hc
  exact List.mem_reverse.mp this

theorem digits_length_le_of_lt (m : ℕ) (h : m < 10 ^ 12) :
    (Nat.digits 10 m).length ≤ 12 := by
  by_cases hm : m = 0
  · subst hm; simp
  · rw [Nat.digits_len 10 m (by norm_num) hm]
    have := (Nat.lt_pow_iff_log_lt (b := 10) (by norm_num) hm).mp h
    omega

theorem pad12_length (b : ℕ) (h : b < 10 ^ 12) : (pad12 b).length = 12 := by
  unfold pad12 digitsChars
  have hlen : (Nat.digits 10 b).length ≤ 12 := digits_length_le_of_lt b h
  simp only [List.length_append, List.length_replicate, List.length_map,
    List.length_reverse]
  omega

theorem ofDigits_replicate_zero (k : ℕ) : Nat.ofDigits 10 (List.replicate k 0) = 0 := by
  induction k with
  | zero => rfl
  | succ k ih => rw [List.replicate_succ, Nat.ofDigits_cons, ih]

theorem natOfChars_pad12 (b : ℕ) : natOfChars (pad12 b) = b := by
  unfold natOfChars pad12 digitsChars
  rw [List.map_append, List.map_map]
  have hmap : (Nat.digits 10 b).reverse.map (charVal ∘ dchar) = (Nat.digits 10 b).reverse := by
    have := map_charVal_map_dchar (Nat.digits 10 b).reverse
      (fun d hd => Nat.digits_lt_base (by norm_num) (by simpa using hd))
    rwa [List.map_map] at this
  have hrep : (List.replicate (12 - ((Nat.digits 10 b).reverse.map dchar).length) '0').map
      charVal = List.replicate (12 - ((Nat.digits 10 b).reverse.map dchar).length) 0 := by
    rw [List.map_replicate]; rfl
  rw [hmap, hrep, List.reverse_append, List.reverse_replicate, List.reverse_reverse,
    Nat.ofDigits_append, ofDigits_replicate_zero, Nat.ofDigits_digits]
  ring

theorem stripZeros_decomp (l : List Char) :
    l = stripZeros l ++ List.replicate (l.length - (stripZeros l).length) '0' := by
  unfold stripZeros
  have hsplit := List.takeWhile_append_dropWhile (p := fun c => c == '0') (l := l.reverse)
  have htake : l.reverse.takeWhile (fun c => c == '0') =
      List.replicate (l.reverse.takeWhile (fun c => c == '0')).length '0' := by
    apply List.eq_replicate_of_mem
    intro c hc
    have := List.mem_takeWhile_imp hc
    simpa using this
  have hlen : (l.reverse.takeWhile (fun c => c == '0')).length =
      l.length - ((l.reverse.dropWhile (fun c => c == '0')).reverse).length := by
    have := congrArg List.length hsplit
    simp only [List.length_append, List.length_reverse] at *
    omega
  conv_lhs => rw [← List.reverse_reverse l, ← hsplit]
  rw [List.reverse_append]
  rw [htake, List.reverse_replicate, hlen]

theorem stripZeros_inj_of_length (u v : List Char) (hlen : u.length = v.length)
    (h : stripZeros u = stripZeros v) : u = v := by
  have hk : u.length - (stripZeros u).length = v.length - (stripZeros v).length := by
    rw [hlen, h]
  calc u = stripZeros u ++ List.replicate (u.length - (stripZeros u).length) '0' :=
        stripZeros_decomp u
    _ = stripZeros v ++ List.replicate (v.length - (stripZeros v).length) '0' := by
        rw [hk, h]
    _ = v := (stripZeros_decomp v).symm

theorem fmtRate12_inj (t t' : ℕ) (h : fmtRate12 t = fmtRate12 t') : t = t' := by
  unfold fmtRate12 at h
  have hdig : ∀ (m : ℕ), ∀ c ∈ charsOfNat m, c ≠ '.' := by
    intro m c hc
    exact isDigit_ne_of c '.' (charsOfNat_digits m c hc) (by decide)
  obtain ⟨hint, hfrac⟩ :=
    splitSep '.' _ _ _ _ (hdig (t / 10 ^ 12)) (hdig (t' / 10 ^ 12)) h
  have hq : t / 10 ^ 12 = t' / 10 ^ 12 := charsOfNat_injective hint
  have hpad : pad12 (t % 10 ^ 12) = pad12 (t' % 10 ^ 12) := by
    apply stripZeros_inj_of_length
    · rw [pad12_length _ (Nat.mod_lt _ (by norm_num)),
        pad12_length _ (Nat.mod_lt _ (by norm_num))]
    · exact hfrac
  have hr : t % 10 ^ 12 = t' % 10 ^ 12 := by
    have := congrArg natOfChars hpad
    rwa [natOfChars_pad12, natOfChars_pad12] at this
  omega

theorem fmtRate_div_pow (A : ℕ) : fmtRate ((A : ℚ) / 10 ^ 12) = fmtRate12 A := by
  unfold fmtRate
  rw [rnd12_div_pow]

theorem msprime_name_shape (n Ne l : ℕ) (rho mu : ℚ) (gs ms : ℕ) :
    msprime_name n Ne l rho mu gs ms =
      (("msprime-n").data ++ charsOfNat n) ++ '_' ::
      ((('N' :: 'e' :: []) ++ (charsOfNat Ne ++ '.' :: '0' :: [])) ++ '_' ::
      ((('l' :: []) ++ charsOfNat l) ++ '_' ::
      ((('r' :: 'h' :: 'o' :: []) ++ fmtRate rho) ++ '_' ::
      (((('m' :: 'u' :: []) ++ fmtRate mu) ++ '-' ::
        (('g' :: 's' :: []) ++ charsOfNat gs)) ++ '_' ::
      (('m' :: 's' :: []) ++ charsOfNat ms))))) := by
  unfold msprime_name pyFloatIntChars
  simp [List.append_assoc]

theorem no_underscore_digits (m : ℕ) : ∀ x ∈ charsOfNat m, x ≠ '_' :=
  fun x hx => isDigit_ne_of x '_' (charsOfNat_digits m x hx) (by decide)

theorem no_dot_digits (m : ℕ) : ∀ x ∈ charsOfNat m, x ≠ '.' :=
  fun x hx => isDigit_ne_of x '.' (charsOfNat_digits m x hx) (by decide)

theorem no_dash_digits (m : ℕ) : ∀ x ∈ charsOfNat m, x ≠ '-' :=
  fun x hx => isDigit_ne_of x '-' (charsOfNat_digits m x hx) (by decide)

theorem fmtRate12_chars (t : ℕ) : ∀ c ∈ fmtRate12 t, c.isDigit = true ∨ c = '.' := by
  intro c hc
  unfold fmtRate12 at hc
  rcases List.mem_append.mp hc with h | h
  · exact Or.inl (charsOfNat_digits _ c h)
  · rcases List.mem_cons.mp h with rfl | h
    · exact Or.inr rfl
    · exact Or.inl (pad12_digits _ c (stripZeros_subset _ c h))

theorem no_underscore_fmtRate12 (t : ℕ) : ∀ x ∈ fmtRate12 t, x ≠ '_' := by
  intro x hx
  rcases fmtRate12_chars t x hx with h | rfl
  · exact isDigit_ne_of x '_' h (by decide)
  · decide

theorem no_dash_fmtRate12 (t : ℕ) : ∀ x ∈ fmtRate12 t, x ≠ '-' := by
  intro x hx
  rcases fmtRate12_chars t x hx with h | rfl
  · exact isDigit_ne_of x '-' h (by decide)
  · decide

theorem noU_f0 (n : ℕ) : ∀ x ∈ ("msprime-n").data ++ charsOfNat n, x ≠ '_' := by
  intro x hx
  rcases List.mem_append.mp hx with h | h
  · have h' : x ∈ ['m', 's', 'p', 'r', 'i', 'm', 'e', '-', 'n'] := h
    fin_cases h' <;> decide
  · exact no_underscore_digits n x h

theorem noU_f1 (m : ℕ) :
    ∀ x ∈ ('N' :: 'e' :: []) ++ (charsOfNat m ++ '.' :: '0' :: []), x ≠ '_' := by
  intro x hx
  rcases List.mem_append.mp hx with h | h
  · fin_cases h <;> decide
  · rcases List.mem_append.mp h with h | h
    · exact no_underscore_digits m x h
    · fin_cases h <;> decide

theorem noU_f2 (m : ℕ) : ∀ x ∈ ('l' :: []) ++ charsOfNat m, x ≠ '_' := by
  intro x hx
  rcases List.mem_append.mp hx with h | h
  · fin_cases h
    decide
  · exact no_underscore_digits m x h

theorem noU_f3 (t : ℕ) : ∀ x ∈ ('r' :: 'h' :: 'o' :: []) ++ fmtRate12 t, x ≠ '_' := by
  intro x hx
  rcases List.mem_append.mp hx with h | h
  · fin_cases h <;> decide
  · exact no_underscore_fmtRate12 t x h

theorem noU_f4 (t g : ℕ) :
    ∀ x ∈ (('m' :: 'u' :: []) ++ fmtRate12 t) ++ '-' ::
      (('g' :: 's' :: []) ++ charsOfNat g), x ≠ '_' := by
  intro x hx
  rcases List.mem_append.mp hx with h | h
  · rcases List.mem_append.mp h with h | h
    · fin_cases h <;> decide
    · exact no_underscore_fmtRate12 t x h
  · rcases List.mem_cons.mp h with rfl | h
    · decide
    · rcases List.mem_append.mp h with h | h
      · fin_cases h <;> decide
      · exact no_underscore_digits g x h

theorem noDash_f4a (t : ℕ) : ∀ x ∈ ('m' :: 'u' :: []) ++ fmtRate12 t, x ≠ '-' := by
  intro x hx
  rcases List.mem_append.mp hx with h | h
  · fin_cases h <;> decide
  · exact no_dash_fmtRate12 t x h

/-- Counterexample to claim C6 as stated: the parameter tuples with
`rho = 1e-13` and `rho = 2e-13` differ in a significant field (the
recombination rate) yet produce identical address strings, because
`"{:.12f}"` rounds both rates to twelve decimal places
(`0.000000000000`) before the trailing zeros are stripped. -/
theorem msprime_name_collision_counterexample :
    msprime_name 12 5000 50000 (1 / 10 ^ 13) (15 / 10 ^ 9) 7 7 =
      msprime_name 12 5000 50000 (2 / 10 ^ 13) (15 / 10 ^ 9) 7 7 ∧
    (1 / 10 ^ 13 : ℚ) ≠ (2 / 10 ^ 13 : ℚ) := by
  constructor
  · have h1 : rnd12 (1 / 10 ^ 13 : ℚ) = 0 := by
      unfold rnd12
      have he : (1 / 10 ^ 13 : ℚ) * 10 ^ 12 + 1/2 = 3/5 := by norm_num
      rw [he]
      have hf : ⌊(3/5 : ℚ)⌋ = 0 := by norm_num [Int.floor_eq_iff]
      rw [hf]
      rfl
    have h2 : rnd12 (2 / 10 ^ 13 : ℚ) = 0 := by
      unfold rnd12
      have he : (2 / 10 ^ 13 : ℚ) * 10 ^ 12 + 1/2 = 7/10 := by norm_num
      rw [he]
      have hf : ⌊(7/10 : ℚ)⌋ = 0 := by norm_num [Int.floor_eq_iff]
      rw [hf]
      rfl
    unfold msprime_name fmtRate
    rw [h1, h2]
  · norm_num

/-- Claim C6 (status: corrected).  `msprime_name` is deterministic (a
pure function of its arguments, so equivalent representations of the
same rate such as `1e-8` and `0.00000001` trivially map to the same
string), and — amended as the counterexample forces — it is injective
on parameter tuples whose rates are exactly representable with twelve
decimal places (`A/10^12`): two such tuples differing in any
significant field (sample size, Ne, length, recombination rate,
mutation rate, genealogy seed, mutation seed) yield different strings.
Rates with information beyond the twelfth decimal place (e.g. `1e-13`
vs `2e-13`) can collide, as the counterexample shows. -/
theorem msprime_name_deterministic_and_injective :
    (∀ (n Ne l : ℕ) (rho mu : ℚ) (gs ms : ℕ),
      msprime_name n Ne l rho mu gs ms = msprime_name n Ne l rho mu gs ms) ∧
    (∀ (n Ne l gs ms n' Ne' l' gs' ms' A B A' B' : ℕ),
      msprime_name n Ne l ((A : ℚ) / 10 ^ 12) ((B : ℚ) / 10 ^ 12) gs ms =
        msprime_name n' Ne' l' ((A' : ℚ) / 10 ^ 12) ((B' : ℚ) / 10 ^ 12) gs' ms' →
      n = n' ∧ Ne = Ne' ∧ l = l' ∧ A = A' ∧ B = B' ∧ gs = gs' ∧ ms = ms') := by
  refine ⟨fun _ _ _ _ _ _ _ => rfl, ?_⟩
  intro n Ne l gs ms n' Ne' l' gs' ms' A B A' B' h
  rw [msprime_name_shape, msprime_name_shape, fmtRate_div_pow, fmtRate_div_pow,
    fmtRate_div_pow, fmtRate_div_pow] at h
  obtain ⟨h0, h⟩ := splitSep '_' _ _ _ _ (noU_f0 n) (noU_f0 n') h
  obtain ⟨h1, h⟩ := splitSep '_' _ _ _ _ (noU_f1 Ne) (noU_f1 Ne') h
  obtain ⟨h2, h⟩ := splitSep '_' _ _ _ _ (noU_f2 l) (noU_f2 l') h
  obtain ⟨h3, h⟩ := splitSep '_' _ _ _ _ (noU_f3 A) (noU_f3 A') h
  obtain ⟨h4, h5⟩ := splitSep '_' _ _ _ _ (noU_f4 B gs) (noU_f4 B' gs') h
  have hn : n = n' := charsOfNat_injective (List.append_cancel_left h0)
  have hNe : Ne = Ne' := by
    have hx := List.append_cancel_left h1
    obtain ⟨hy, -⟩ := splitSep '.' _ _ _ _ (no_dot_digits Ne) (no_dot_digits Ne') hx
    exact charsOfNat_injective hy
  have hl : l = l' := charsOfNat_injective (List.append_cancel_left h2)
  have hA : A = A' := fmtRate12_inj _ _ (List.append_cancel_left h3)
  obtain ⟨hmu, hgs⟩ := splitSep '-' _ _ _ _ (noDash_f4a B) (noDash_f4a B') h4
  have hB : B = B' := fmtRate12_inj _ _ (List.append_cancel_left hmu)
  have hg : gs = gs' := charsOfNat_injective (List.append_cancel_left hgs)
  have hms : ms = ms' := charsOfNat_injective (List.append_cancel_left h5)
  exact ⟨hn, hNe, hl, hA, hB, hg, hms⟩

/-- Witness for C6 at the pipeline's own parameters: `n = 12`,
`Ne = 5000`, `l = 50000`, `rho = 2.5e-8 = 25000/10^12`,
`mu = 1.5e-8 = 15000/10^12`, seeds 13. -/
theorem msprime_name_deterministic_and_injective_witness :
    12 = 12 ∧ 5000 = 5000 ∧ 50000 = 50000 ∧ 25000 = 25000 ∧ 15000 = 15000 ∧
      13 = 13 ∧ 13 = 13 :=
  msprime_name_deterministic_and_injective.2 12 5000 50000 13 13 12 5000 50000 13 13
    25000 15000 25000 15000 rfl

end TreeseqInference
